import Mathlib

/-!
# Verification of the Real-Time Streaming Session Manager

A shallow embedding, in Lean 4, of the `LiveSessionManager` class
(`services/liveService.ts`) of the hackathon-copilot repository: the
sample converter (`pcmToB64` and the inline PCM16 decode of
`playAudioChunk`), the playback scheduler (the `nextStartTime` discipline
of `playAudioChunk`), the video frame pipeline (the tick closure of
`startVideoStreaming` together with `setScreenShareMode`), and the
teardown path (`disconnect`).

Conventions of the embedding:
* JavaScript numbers (audio-clock times, float samples) are modelled as
  rationals `ℚ`; all the arithmetic the embedded code performs on them
  (comparison, `max`, addition, multiplication by small integers,
  division by `32768` or `24000`) is exact in double precision for the
  magnitudes involved, so `ℚ` is faithful.
* Byte strings are `List ℕ` with every element `< 256`.  The base64
  transport step (`btoa` in `pcmToB64`, `atob` at the head of
  `playAudioChunk`) is an exact bijection between byte sequences and
  transport text and composes to the identity on the path studied here,
  so the embedding works at the byte level on either side of it.
* Stateful methods become explicit state-passing functions on a
  `SessionState` record whose fields mirror the class fields (a `Bool`
  field `fooSet` models whether the nullable class field `foo` currently
  holds an object).
* The fallible decode of `playAudioChunk` (the `DataView.getInt16` read
  that throws past the end of an odd-length buffer) becomes an
  `Except`-valued function.
-/

namespace LiveSession

/-- Error raised when an inbound audio chunk cannot be decoded
(the spec's `MalformedAudioError`; in the source, the out-of-bounds
`DataView.getInt16` read on an odd-length byte buffer). -/
inductive AudioError where
  | malformedAudio
deriving DecidableEq

/-- JavaScript truncation toward zero (the conversion applied when a
number is stored into an `Int16Array`, before the mod-2^16 wrap). -/
def jsTrunc (x : ℚ) : ℤ := if 0 ≤ x then ⌊x⌋ else -⌊-x⌋

/-- `Math.max(-1, Math.min(1, x))` — the clamp in `pcmToB64`. -/
def clampSample (x : ℚ) : ℚ := max (-1) (min 1 x)

/-- One sample of `pcmToB64`: `pcm16[i] = Math.max(-1, Math.min(1, data[i])) * 0x7FFF`
stored into an `Int16Array` (truncation toward zero; the clamped product
lies in `[-32767, 32767]`, so no wrap occurs). -/
def floatToInt16 (x : ℚ) : ℤ := jsTrunc (clampSample x * 32767)

/-- The two little-endian bytes of an int16 value (the `Uint8Array` view
of the `Int16Array` buffer in `pcmToB64`; two's complement, so the byte
pattern is that of `v mod 2^16`). -/
def int16ToBytes (v : ℤ) : ℕ × ℕ :=
  ((v % 65536).toNat % 256, (v % 65536).toNat / 256)

/-- The byte string produced by `pcmToB64` (before the base64 `btoa`
step): each sample clamped, scaled by `0x7FFF`, truncated to int16,
emitted little-endian. -/
def floatToPcm16 : List ℚ → List ℕ
  | [] => []
  | x :: xs =>
    (int16ToBytes (floatToInt16 x)).1 :: (int16ToBytes (floatToInt16 x)).2 ::
      floatToPcm16 xs

/-- `dataView.getInt16(2*i, true)`: two little-endian bytes read back as
a signed 16-bit integer. -/
def bytesToInt16 (b0 b1 : ℕ) : ℤ :=
  if b0 + 256 * b1 < 32768 then ((b0 + 256 * b1 : ℕ) : ℤ)
  else ((b0 + 256 * b1 : ℕ) : ℤ) - 65536

/-- `getInt16(..) / 32768.0` — one decoded float sample of `playAudioChunk`. -/
def int16ToFloat (v : ℤ) : ℚ := (v : ℚ) / 32768

/-- The PCM16 decode loop of `playAudioChunk` (lines 386–391): reads
consecutive little-endian int16 values and divides each by `32768`.
On a byte buffer of odd length the loop bound `i < bytes.length / 2`
admits one final iteration whose `getInt16` read falls outside the
buffer and throws — modelled by the single-trailing-byte error case. -/
def decodePcm16 : List ℕ → Except AudioError (List ℚ)
  | [] => .ok []
  | [_] => .error .malformedAudio
  | b0 :: b1 :: rest =>
    match decodePcm16 rest with
    | .error e => .error e
    | .ok fs => .ok (int16ToFloat (bytesToInt16 b0 b1) :: fs)

/-- The fields of `LiveSessionManager` relevant to the verified claims.
A `Bool` field `fooSet` records whether the nullable class field `foo`
currently holds an object; `micStreamActive` records whether the
`getUserMedia` stream obtained in `connect` still has live tracks. -/
structure SessionState where
  isConnected : Bool
  isScreenSharing : Bool
  sessionSet : Bool
  inputContextSet : Bool
  outputContextSet : Bool
  inputSourceSet : Bool
  processorSet : Bool
  videoIntervalSet : Bool
  micStreamActive : Bool
  nextStartTime : ℚ
deriving DecidableEq

/-- Outcome of one `playAudioChunk` call. -/
inductive PlayResult where
  /-- The `if (!this.outputContext) return;` guard fired. -/
  | skipped
  /-- The PCM16 decode threw; nothing was scheduled. -/
  | decodeFailed
  /-- A buffer of duration `dur` was scheduled to start at `start`. -/
  | scheduled (start dur : ℚ)
deriving DecidableEq

/-- `playAudioChunk` (lines 379–405), with the base64 layer stripped:
`bytes` is the byte sequence `atob` yields, `now` the value of
`outputContext.currentTime` read during this call.  Decodes the PCM16
payload, builds a buffer of `floats.length` frames at 24000 Hz (so of
duration `floats.length / 24000` seconds), schedules it at
`max(now, nextStartTime)` and advances `nextStartTime` past its end. -/
def playAudioChunk (st : SessionState) (now : ℚ) (bytes : List ℕ) :
    PlayResult × SessionState :=
  if st.outputContextSet = false then (.skipped, st)
  else
    match decodePcm16 bytes with
    | .error _ => (.decodeFailed, st)
    | .ok floats =>
      let dur : ℚ := (floats.length : ℚ) / 24000
      let start : ℚ := max now st.nextStartTime
      (.scheduled start dur, { st with nextStartTime := start + dur })

/-- A run of `playAudioChunk` over a sequence of inbound chunks, each
given as (arrival time read from the audio clock, decoded byte payload);
returns the per-chunk outcomes and the final state. -/
def playRun (st : SessionState) : List (ℚ × List ℕ) → List PlayResult × SessionState
  | [] => ([], st)
  | (now, bytes) :: rest =>
    let r := playAudioChunk st now bytes
    let rs := playRun r.2 rest
    (r.1 :: rs.1, rs.2)

/-- The scheduling core of `playAudioChunk` (lines 400–404) iterated over
a sequence of (arrival time, buffer duration) pairs from an initial
`nextStartTime`: each chunk starts at `max(arrival, nextStartTime)` and
`nextStartTime` advances to `start + duration`.  Returns the list of
computed start times. -/
def scheduleRun (s : ℚ) : List (ℚ × ℚ) → List ℚ
  | [] => []
  | (t, d) :: rest => max t s :: scheduleRun (max t s + d) rest

/-- The start times among a list of `playAudioChunk` outcomes, in order. -/
def startsOf : List PlayResult → List ℚ
  | [] => []
  | .scheduled s _ :: rs => s :: startsOf rs
  | .skipped :: rs => startsOf rs
  | .decodeFailed :: rs => startsOf rs

/-- The start times computed by a run of `playAudioChunk` over a chunk
sequence. -/
def runStarts (st : SessionState) (chunks : List (ℚ × List ℕ)) : List ℚ :=
  startsOf (playRun st chunks).1

/-- The duration `playAudioChunk` assigns to a successfully decoded byte
payload: `floats.length` frames at 24000 Hz. -/
def durOf (bytes : List ℕ) : ℚ := ((bytes.length / 2 : ℕ) : ℚ) / 24000

/-- The Sample Converter encode contract written from the spec's words
(§4.1 `floatToPcm16`): clamp each sample to `[-1,1]`, scale by the int16
maximum magnitude `32767`, truncate to a 16-bit signed integer, emit the
two bytes in little-endian order.  Stated independently of the source
translation `floatToPcm16` so the two can be compared. -/
def floatToPcm16Spec (xs : List ℚ) : List ℕ :=
  (xs.map fun x =>
    let v : ℤ := jsTrunc (max (-1) (min 1 x) * 32767)
    let u : ℕ := (v % 65536).toNat
    [u % 256, u / 256]).flatten

/-- Counters of platform release calls issued by teardown: how often the
input source node and processor node were disconnected, the audio
contexts closed, the video interval cleared, and the microphone stream's
tracks stopped. -/
structure ReleaseLog where
  inputSourceDisconnects : ℕ
  processorDisconnects : ℕ
  inputContextCloses : ℕ
  outputContextCloses : ℕ
  intervalClears : ℕ
  micStops : ℕ
deriving DecidableEq

/-- `disconnect` (lines 407–417), instrumented with a release log.  The
method clears `isConnected`, issues a guarded release call for each
non-null field, then nulls the two audio-context fields only.
`inputSource`, `processor` and `videoInterval` are left set, and no code
path ever stops the `getUserMedia` stream's tracks. -/
def disconnect (st : SessionState) (log : ReleaseLog) : SessionState × ReleaseLog :=
  let log1 := if st.inputSourceSet then
    { log with inputSourceDisconnects := log.inputSourceDisconnects + 1 } else log
  let log2 := if st.processorSet then
    { log1 with processorDisconnects := log1.processorDisconnects + 1 } else log1
  let log3 := if st.inputContextSet then
    { log2 with inputContextCloses := log2.inputContextCloses + 1 } else log2
  let log4 := if st.outputContextSet then
    { log3 with outputContextCloses := log3.outputContextCloses + 1 } else log3
  let log5 := if st.videoIntervalSet then
    { log4 with intervalClears := log4.intervalClears + 1 } else log4
  ({ st with isConnected := false, inputContextSet := false, outputContextSet := false },
    log5)

/-- `setScreenShareMode` (lines 249–251). -/
def setScreenShareMode (st : SessionState) (enabled : Bool) : SessionState :=
  { st with isScreenSharing := enabled }

/-- The downscale factor read on each video tick (line 359):
`this.isScreenSharing ? 0.5 : 0.25`. -/
def scaleFor (isScreenSharing : Bool) : ℚ :=
  if isScreenSharing then 1 / 2 else 1 / 4

/-- The JPEG quality read on each video tick (line 366):
`this.isScreenSharing ? 0.7 : 0.5`. -/
def qualityFor (isScreenSharing : Bool) : ℚ :=
  if isScreenSharing then 7 / 10 else 1 / 2

/-- A live video source as the tick closure sees it: its current pixel
dimensions, plus whether it has produced a new frame since the previous
tick (environment information the closure could in principle consult). -/
structure VideoSource where
  hasNewFrame : Bool
  videoWidth : ℚ
  videoHeight : ℚ
deriving DecidableEq

/-- One compressed frame handed to the transport: the downscale factor
and JPEG quality used, and the resulting canvas dimensions. -/
structure VideoFrame where
  scale : ℚ
  quality : ℚ
  width : ℚ
  height : ℚ
deriving DecidableEq

/-- One tick of the `startVideoStreaming` interval closure (lines
354–376): bail out when the session is not connected or the canvas 2D
context is unavailable; otherwise re-read `isScreenSharing`, render the
source downscaled by the mode's factor, compress at the mode's quality
and send.  The closure never consults whether the source has produced a
new frame since the last tick. -/
def videoTick (st : SessionState) (ctxOk : Bool) (src : VideoSource) :
    Option VideoFrame :=
  if st.isConnected = false || ctxOk = false then none
  else some
    { scale := scaleFor st.isScreenSharing
      quality := qualityFor st.isScreenSharing
      width := src.videoWidth * scaleFor st.isScreenSharing
      height := src.videoHeight * scaleFor st.isScreenSharing }

/-- `startVideoStreaming` (lines 347–377) up to its timer registration:
a no-op without a session object, otherwise it installs the interval
timer whose ticks are `videoTick`. -/
def startVideoStreaming (st : SessionState) : SessionState :=
  if st.sessionSet then { st with videoIntervalSet := true } else st

/-- The state of a fully connected session, as established by `connect`
once its `onopen` callback has run: every resource field is live,
camera mode, `nextStartTime` at its initial value `0`. -/
def connectedState : SessionState :=
  { isConnected := true
    isScreenSharing := false
    sessionSet := true
    inputContextSet := true
    outputContextSet := true
    inputSourceSet := true
    processorSet := true
    videoIntervalSet := true
    micStreamActive := true
    nextStartTime := 0 }

theorem durOf_nonneg (bytes : List ℕ) : 0 ≤ durOf bytes := by
  unfold durOf; positivity

/-- On an even-length byte sequence the decode loop succeeds and yields
one float per byte pair. -/
theorem decodePcm16_even : ∀ (bytes : List ℕ), bytes.length % 2 = 0 →
    ∃ fs, decodePcm16 bytes = .ok fs ∧ fs.length = bytes.length / 2
  | [], _ => ⟨[], rfl, rfl⟩
  | [_], h => by simp at h
  | b0 :: b1 :: rest, h => by
    have hr : rest.length % 2 = 0 := by simp [List.length] at h; omega
    obtain ⟨fs, hfs, hlen⟩ := decodePcm16_even rest hr
    refine ⟨int16ToFloat (bytesToInt16 b0 b1) :: fs, ?_, ?_⟩
    · simp [decodePcm16, hfs]
    · simp [hlen, List.length]; omega

/-- On an odd-length byte sequence the decode loop fails: its final
iteration reads two bytes past an odd end. -/
theorem decodePcm16_odd : ∀ (bytes : List ℕ), bytes.length % 2 = 1 →
    decodePcm16 bytes = .error .malformedAudio
  | [], h => by simp at h
  | [_], _ => rfl
  | _ :: _ :: rest, h => by
    have hr : rest.length % 2 = 1 := by simp [List.length] at h; omega
    simp [decodePcm16, decodePcm16_odd rest hr]

theorem scheduleRun_length (s : ℚ) (chunks : List (ℚ × ℚ)) :
    (scheduleRun s chunks).length = chunks.length := by
  induction chunks generalizing s with
  | nil => rfl
  | cons c rest ih => cases c; simp [scheduleRun, ih]

theorem scheduleRun_getD_zero (s t d : ℚ) (rest : List (ℚ × ℚ)) :
    (scheduleRun s ((t, d) :: rest)).getD 0 0 = max t s := rfl

/-- Master recurrence: each start after the first is the max of its own
arrival time and the previous start plus the previous duration. -/
theorem scheduleRun_getD_succ (s : ℚ) (chunks : List (ℚ × ℚ)) (i : ℕ)
    (h : i + 1 < chunks.length) :
    (scheduleRun s chunks).getD (i + 1) 0 =
      max (chunks.getD (i + 1) (0, 0)).1
        ((scheduleRun s chunks).getD i 0 + (chunks.getD i (0, 0)).2) := by
  induction chunks generalizing s i with
  | nil => simp at h
  | cons c rest ih =>
    obtain ⟨t, d⟩ := c
    cases i with
    | zero =>
      cases rest with
      | nil => simp at h
      | cons c' rest' => obtain ⟨t', d'⟩ := c'; simp [scheduleRun]
    | succ j =>
      have hj : j + 1 < rest.length := by simpa using h
      simpa [scheduleRun] using ih (max t s + d) j hj

/-- A chunk-sequence run of `playAudioChunk` in which every payload has
even byte length (so every decode succeeds) computes exactly the start
times of the jitter-buffer recurrence `scheduleRun`, with each chunk's
duration `durOf` its payload. -/
theorem playRun_starts_eq (st : SessionState) (chunks : List (ℚ × List ℕ))
    (hctx : st.outputContextSet = true)
    (heven : ∀ c ∈ chunks, (c.2).length % 2 = 0) :
    runStarts st chunks =
      scheduleRun st.nextStartTime (chunks.map fun c => (c.1, durOf c.2)) := by
  induction chunks generalizing st with
  | nil => simp [runStarts, playRun, startsOf, scheduleRun]
  | cons c rest ih =>
    obtain ⟨now, bytes⟩ := c
    obtain ⟨fs, hfs, hlen⟩ := decodePcm16_even bytes (heven (now, bytes) (List.mem_cons_self _ _))
    have hplay : playAudioChunk st now bytes =
        (.scheduled (max now st.nextStartTime) (durOf bytes),
          { st with nextStartTime := max now st.nextStartTime + durOf bytes }) := by
      unfold playAudioChunk
      rw [hctx]
      simp only [Bool.true_eq_false, if_false, hfs]
      unfold durOf
      rw [hlen]
    have hctx' : (({ st with nextStartTime := max now st.nextStartTime + durOf bytes } :
        SessionState)).outputContextSet = true := hctx
    have := ih { st with nextStartTime := max now st.nextStartTime + durOf bytes }
      hctx' (fun c hc => heven c (by simp [hc]))
    simp only [runStarts, playRun, hplay, startsOf, List.map_cons, scheduleRun] at this ⊢
    exact congrArg _ this

/-- `getD` through the arrival/duration projection of a chunk list. -/
theorem chunks_map_getD (chunks : List (ℚ × List ℕ)) (i : ℕ) (hi : i < chunks.length) :
    (chunks.map fun c => (c.1, durOf c.2)).getD i (0, 0) =
      ((chunks.getD i (0, [])).1, durOf (chunks.getD i (0, [])).2) := by
  have hi' : i < (chunks.map fun c => (c.1, durOf c.2)).length := by
    simpa using hi
  rw [List.getD_eq_getElem _ _ hi', List.getD_eq_getElem _ _ hi, List.getElem_map]

/-- **C1** (No-overlap scheduling): over any run of `playAudioChunk` on a
sequence of decodable chunks (even-length byte payloads) with arrival
times read from the clock, one start time is computed per chunk, the
first start is at or after the first arrival time, each later buffer
starts no earlier than the previous start plus the previous buffer's
duration, and start times are monotonically non-decreasing — scheduled
buffers never overlap. -/
theorem playAudioChunk_no_overlap (st : SessionState) (chunks : List (ℚ × List ℕ))
    (hctx : st.outputContextSet = true)
    (heven : ∀ c ∈ chunks, (c.2).length % 2 = 0) :
    (runStarts st chunks).length = chunks.length
    ∧ (∀ t bytes rest, chunks = (t, bytes) :: rest →
        t ≤ (runStarts st chunks).getD 0 0)
    ∧ (∀ i, i + 1 < chunks.length →
        (runStarts st chunks).getD i 0 + durOf (chunks.getD i (0, [])).2
          ≤ (runStarts st chunks).getD (i + 1) 0)
    ∧ (∀ i, i + 1 < chunks.length →
        (runStarts st chunks).getD i 0 ≤ (runStarts st chunks).getD (i + 1) 0) := by
  have hb := playRun_starts_eq st chunks hctx heven
  have hsucc : ∀ i, i + 1 < chunks.length →
      (runStarts st chunks).getD i 0 + durOf (chunks.getD i (0, [])).2
        ≤ (runStarts st chunks).getD (i + 1) 0 := by
    intro i hi
    have hmap : i + 1 < (chunks.map fun c => (c.1, durOf c.2)).length := by simpa using hi
    rw [hb, scheduleRun_getD_succ _ _ i hmap, chunks_map_getD chunks i (by omega)]
    exact le_max_right _ _
  refine ⟨?_, ?_, hsucc, ?_⟩
  · rw [hb, scheduleRun_length, List.length_map]
  · intro t bytes rest hc
    subst hc
    rw [hb]
    exact le_max_left _ _
  · intro i hi
    have h1 := hsucc i hi
    have h2 := durOf_nonneg (chunks.getD i (0, [])).2
    linarith

/-- Witness for C1: two decodable chunks, the second arriving while the
first is still playing. -/
theorem playAudioChunk_no_overlap_witness :
    (runStarts ⟨true, false, true, true, true, true, true, true, true, 0⟩
        [((0 : ℚ), [0, 0]), ((0 : ℚ), [0, 0])]).length =
      ([((0 : ℚ), [(0 : ℕ), 0]), ((0 : ℚ), [0, 0])] : List (ℚ × List ℕ)).length
    ∧ (∀ t bytes rest,
        ([((0 : ℚ), [(0 : ℕ), 0]), ((0 : ℚ), [0, 0])] : List (ℚ × List ℕ)) =
          (t, bytes) :: rest →
        t ≤ (runStarts ⟨true, false, true, true, true, true, true, true, true, 0⟩
          [((0 : ℚ), [0, 0]), ((0 : ℚ), [0, 0])]).getD 0 0)
    ∧ (∀ i, i + 1 < ([((0 : ℚ), [(0 : ℕ), 0]), ((0 : ℚ), [0, 0])] :
          List (ℚ × List ℕ)).length →
        (runStarts ⟨true, false, true, true, true, true, true, true, true, 0⟩
            [((0 : ℚ), [0, 0]), ((0 : ℚ), [0, 0])]).getD i 0 +
          durOf (([((0 : ℚ), [(0 : ℕ), 0]), ((0 : ℚ), [0, 0])] :
            List (ℚ × List ℕ)).getD i (0, [])).2
          ≤ (runStarts ⟨true, false, true, true, true, true, true, true, true, 0⟩
            [((0 : ℚ), [0, 0]), ((0 : ℚ), [0, 0])]).getD (i + 1) 0)
    ∧ (∀ i, i + 1 < ([((0 : ℚ), [(0 : ℕ), 0]), ((0 : ℚ), [0, 0])] :
          List (ℚ × List ℕ)).length →
        (runStarts ⟨true, false, true, true, true, true, true, true, true, 0⟩
            [((0 : ℚ), [0, 0]), ((0 : ℚ), [0, 0])]).getD i 0
          ≤ (runStarts ⟨true, false, true, true, true, true, true, true, true, 0⟩
            [((0 : ℚ), [0, 0]), ((0 : ℚ), [0, 0])]).getD (i + 1) 0) :=
  playAudioChunk_no_overlap _ _ rfl (by decide)

/-- **C2** (Gapless-when-fast): in a run of `playAudioChunk` over
decodable chunks, if chunk `i+1` arrives (reads the clock) no later than
the instant the previous buffer ends, its start time equals exactly the
previous start plus the previous duration — zero gap. -/
theorem playAudioChunk_gapless_when_fast (st : SessionState)
    (chunks : List (ℚ × List ℕ)) (i : ℕ)
    (hctx : st.outputContextSet = true)
    (heven : ∀ c ∈ chunks, (c.2).length % 2 = 0)
    (hi : i + 1 < chunks.length)
    (harr : (chunks.getD (i + 1) (0, [])).1 ≤
      (runStarts st chunks).getD i 0 + durOf (chunks.getD i (0, [])).2) :
    (runStarts st chunks).getD (i + 1) 0 =
      (runStarts st chunks).getD i 0 + durOf (chunks.getD i (0, [])).2 := by
  have hb := playRun_starts_eq st chunks hctx heven
  have hmap : i + 1 < (chunks.map fun c => (c.1, durOf c.2)).length := by simpa using hi
  rw [hb] at harr ⊢
  rw [scheduleRun_getD_succ _ _ i hmap, chunks_map_getD chunks i (by omega),
    chunks_map_getD chunks (i + 1) hi]
  exact max_eq_right (by simpa [chunks_map_getD chunks i (by omega : i < chunks.length)]
    using harr)

/-- Witness for C2: the second chunk arrives at time 0, before the first
(scheduled at 0, lasting 1/24000) ends, and starts exactly at its end. -/
theorem playAudioChunk_gapless_when_fast_witness :
    (runStarts ⟨true, false, true, true, true, true, true, true, true, 0⟩
        [((0 : ℚ), [0, 0]), ((0 : ℚ), [0, 0])]).getD (0 + 1) 0 =
      (runStarts ⟨true, false, true, true, true, true, true, true, true, 0⟩
          [((0 : ℚ), [0, 0]), ((0 : ℚ), [0, 0])]).getD 0 0 +
        durOf (([((0 : ℚ), [(0 : ℕ), 0]), ((0 : ℚ), [0, 0])] :
          List (ℚ × List ℕ)).getD 0 (0, [])).2 :=
  playAudioChunk_gapless_when_fast _ _ 0 rfl (by decide) (by decide)
    (by norm_num [runStarts, playRun, playAudioChunk, startsOf, decodePcm16,
      durOf, int16ToFloat, bytesToInt16])

theorem bytesToInt16_range (b0 b1 : ℕ) (h0 : b0 < 256) (h1 : b1 < 256) :
    -32768 ≤ bytesToInt16 b0 b1 ∧ bytesToInt16 b0 b1 ≤ 32767 := by
  unfold bytesToInt16
  split <;> omega

theorem int16ToBytes_lt (v : ℤ) :
    (int16ToBytes v).1 < 256 ∧ (int16ToBytes v).2 < 256 := by
  unfold int16ToBytes
  omega

/-- Reading back the two little-endian bytes of an in-range int16
recovers the value. -/
theorem bytesToInt16_int16ToBytes (v : ℤ) (h0 : -32768 ≤ v) (h1 : v ≤ 32767) :
    bytesToInt16 (int16ToBytes v).1 (int16ToBytes v).2 = v := by
  unfold bytesToInt16 int16ToBytes
  split <;> omega

theorem int16ToFloat_mem_Icc (v : ℤ) (h0 : -32768 ≤ v) (h1 : v ≤ 32767) :
    -1 ≤ int16ToFloat v ∧ int16ToFloat v ≤ 1 := by
  unfold int16ToFloat
  have hv0 : (-32768 : ℚ) ≤ (v : ℚ) := by exact_mod_cast h0
  have hv1 : (v : ℚ) ≤ 32767 := by exact_mod_cast h1
  constructor
  · rw [le_div_iff₀ (by norm_num : (0 : ℚ) < 32768)]
    linarith
  · rw [div_le_one (by norm_num : (0 : ℚ) < 32768)]
    linarith

/-- Every float the decode loop produces from genuine bytes lies in
`[-1, 1]`. -/
theorem decodePcm16_mem_range : ∀ (bytes : List ℕ), (∀ b ∈ bytes, b < 256) →
    ∀ fs, decodePcm16 bytes = .ok fs → ∀ x ∈ fs, -1 ≤ x ∧ x ≤ 1
  | [], _, fs, h => by
    simp only [decodePcm16, Except.ok.injEq] at h
    subst h
    simp
  | [_], _, fs, h => by
    simp [decodePcm16] at h
  | b0 :: b1 :: rest, hb, fs, h => by
    match hr : decodePcm16 rest with
    | .error e =>
      rw [decodePcm16, hr] at h
      exact absurd h (by simp)
    | .ok gs =>
      rw [decodePcm16, hr] at h
      simp only [Except.ok.injEq] at h
      subst h
      intro x hx
      rcases List.mem_cons.mp hx with rfl | hx
      · have h0 : b0 < 256 := hb b0 (by simp)
        have h1 : b1 < 256 := hb b1 (by simp)
        obtain ⟨hl, hu⟩ := bytesToInt16_range b0 b1 h0 h1
        exact int16ToFloat_mem_Icc _ hl hu
      · exact decodePcm16_mem_range rest (fun b hbm => hb b (by simp [hbm])) gs hr x hx

/-- The decode loop's output, elementwise: sample `i` is the
little-endian int16 at byte offset `2*i`, divided by 32768. -/
theorem decodePcm16_getD : ∀ (bytes : List ℕ) (fs : List ℚ),
    decodePcm16 bytes = .ok fs → ∀ i, 2 * i + 1 < bytes.length →
      fs.getD i 0 =
        int16ToFloat (bytesToInt16 (bytes.getD (2 * i) 0) (bytes.getD (2 * i + 1) 0))
  | [], _, _, i, hi => by simp at hi
  | [_], fs, h, i, hi => by simp [decodePcm16] at h
  | b0 :: b1 :: rest, fs, h, i, hi => by
    match hr : decodePcm16 rest with
    | .error e =>
      rw [decodePcm16, hr] at h
      exact absurd h (by simp)
    | .ok gs =>
      rw [decodePcm16, hr] at h
      simp only [Except.ok.injEq] at h
      subst h
      cases i with
      | zero => rfl
      | succ j =>
        have hj : 2 * j + 1 < rest.length := by
          simp only [List.length_cons] at hi
          omega
        have ih := decodePcm16_getD rest gs hr j hj
        rw [show 2 * (j + 1) = 2 * j + 1 + 1 by ring]
        simpa [List.getD_cons_succ] using ih

/-- **C4** (floatToPcm16 contract): on every input sample list —
out-of-range values included — the source encode `floatToPcm16` agrees
exactly with the contract `floatToPcm16Spec` (clamp to `[-1,1]`, scale by
the int16 maximum `32767`, truncate to a 16-bit signed integer, emit
little-endian bytes), produces two bytes per sample, and every emitted
value is a genuine byte.  Both sides are total Lean functions: the
operation is pure and never fails. -/
theorem floatToPcm16_contract (xs : List ℚ) :
    floatToPcm16 xs = floatToPcm16Spec xs
    ∧ (floatToPcm16 xs).length = 2 * xs.length
    ∧ ∀ b ∈ floatToPcm16 xs, b < 256 := by
  induction xs with
  | nil => exact ⟨rfl, rfl, by simp [floatToPcm16]⟩
  | cons x xs ih =>
    obtain ⟨h1, h2, h3⟩ := ih
    refine ⟨?_, ?_, ?_⟩
    · simp only [floatToPcm16, floatToPcm16Spec, List.map_cons, List.flatten_cons,
        int16ToBytes, floatToInt16, clampSample] at h1 ⊢
      simp [h1]
    · simp only [floatToPcm16, List.length_cons, h2]
      ring
    · intro b hbm
      simp only [floatToPcm16, List.mem_cons] at hbm
      rcases hbm with rfl | rfl | hbm
      · exact (int16ToBytes_lt _).1
      · exact (int16ToBytes_lt _).2
      · exact h3 b hbm

/-- **C5** (pcm16ToFloat precondition and failure mode): on every
even-length byte sequence the decode of `playAudioChunk` succeeds,
yielding one float per little-endian int16 pair, each equal to that
int16 divided by 32768 and hence in `[-1,1]`; on every odd-length byte
sequence it fails with the malformed-audio error, and the failing
`playAudioChunk` call drops the chunk leaving the session state —
connection, contexts, `nextStartTime` — exactly as it was, so playback
continues with the next valid chunk. -/
theorem pcm16ToFloat_contract (bytes : List ℕ) (st : SessionState) (now : ℚ)
    (hbytes : ∀ b ∈ bytes, b < 256)
    (hctx : st.outputContextSet = true) :
    (bytes.length % 2 = 0 →
      ∃ fs, decodePcm16 bytes = .ok fs ∧ fs.length = bytes.length / 2
        ∧ (∀ x ∈ fs, -1 ≤ x ∧ x ≤ 1)
        ∧ ∀ i, 2 * i + 1 < bytes.length →
            fs.getD i 0 = int16ToFloat
              (bytesToInt16 (bytes.getD (2 * i) 0) (bytes.getD (2 * i + 1) 0)))
    ∧ (bytes.length % 2 = 1 →
        decodePcm16 bytes = .error .malformedAudio
        ∧ playAudioChunk st now bytes = (.decodeFailed, st)) := by
  constructor
  · intro heven
    obtain ⟨fs, hfs, hlen⟩ := decodePcm16_even bytes heven
    exact ⟨fs, hfs, hlen, decodePcm16_mem_range bytes hbytes fs hfs,
      decodePcm16_getD bytes fs hfs⟩
  · intro hodd
    have hdec := decodePcm16_odd bytes hodd
    refine ⟨hdec, ?_⟩
    unfold playAudioChunk
    rw [hctx]
    simp [hdec]

/-- Witness for C5 at a two-byte payload from a connected session. -/
theorem pcm16ToFloat_contract_witness :
    (([0, 0] : List ℕ).length % 2 = 0 →
      ∃ fs, decodePcm16 [0, 0] = .ok fs
        ∧ fs.length = ([0, 0] : List ℕ).length / 2
        ∧ (∀ x ∈ fs, -1 ≤ x ∧ x ≤ 1)
        ∧ ∀ i, 2 * i + 1 < ([0, 0] : List ℕ).length →
            fs.getD i 0 = int16ToFloat
              (bytesToInt16 (([0, 0] : List ℕ).getD (2 * i) 0)
                (([0, 0] : List ℕ).getD (2 * i + 1) 0)))
    ∧ (([0, 0] : List ℕ).length % 2 = 1 →
        decodePcm16 [0, 0] = .error .malformedAudio
        ∧ playAudioChunk connectedState 0 [0, 0] = (.decodeFailed, connectedState)) :=
  pcm16ToFloat_contract [0, 0] connectedState 0 (by decide) rfl

/-- **C6** (Decode-failure atomicity): whenever the PCM16 decode of an
inbound chunk fails inside `playAudioChunk`, the call returns the
decode-failure signal to the caller and the entire session state — in
particular `nextStartTime` — is exactly what it was before the call: the
chunk is dropped and no gap is inserted into the schedule. -/
theorem playAudioChunk_decode_failure_atomic (st : SessionState) (now : ℚ)
    (bytes : List ℕ) (e : AudioError)
    (hctx : st.outputContextSet = true)
    (hdec : decodePcm16 bytes = .error e) :
    playAudioChunk st now bytes = (.decodeFailed, st) := by
  unfold playAudioChunk
  rw [hctx]
  simp [hdec]

/-- Witness for C6 at the odd single-byte payload `[0]`. -/
theorem playAudioChunk_decode_failure_atomic_witness :
    playAudioChunk connectedState 0 [0] = (.decodeFailed, connectedState) :=
  playAudioChunk_decode_failure_atomic connectedState 0 [0] .malformedAudio rfl rfl

/-- **C10** (implicit: late chunks after teardown): any `playAudioChunk`
call made after `disconnect` — which nulls the output audio context —
hits the initial guard, returns the skip outcome without error,
schedules nothing, and leaves `nextStartTime` and every other field of
the session state unchanged: late chunks are silently dropped. -/
theorem playAudioChunk_after_disconnect (st : SessionState) (log : ReleaseLog)
    (now : ℚ) (bytes : List ℕ) :
    playAudioChunk (disconnect st log).1 now bytes = (.skipped, (disconnect st log).1) := by
  unfold playAudioChunk disconnect
  simp

/-- The truncation error of `jsTrunc` is at most one. -/
theorem jsTrunc_near (y : ℚ) : |((jsTrunc y : ℤ) : ℚ) - y| ≤ 1 := by
  unfold jsTrunc
  split
  case isTrue h =>
    have h1 := Int.floor_le y
    have h2 := Int.lt_floor_add_one y
    rw [abs_le]
    constructor <;> linarith
  case isFalse h =>
    have h1 := Int.floor_le (-y)
    have h2 := Int.lt_floor_add_one (-y)
    rw [abs_le]
    constructor <;> push_cast <;> linarith

/-- Truncation toward zero keeps a value bounded by `32767` within the
int16-positive range. -/
theorem jsTrunc_range (y : ℚ) (h0 : -32767 ≤ y) (h1 : y ≤ 32767) :
    -32767 ≤ jsTrunc y ∧ jsTrunc y ≤ 32767 := by
  unfold jsTrunc
  have hfl : (⌊(32767 : ℚ)⌋ : ℤ) = 32767 := by
    rw [show ((32767 : ℚ)) = ((32767 : ℤ) : ℚ) by norm_num, Int.floor_intCast]
  split
  case isTrue h =>
    have hge : (0 : ℤ) ≤ ⌊y⌋ := Int.floor_nonneg.mpr h
    have hle : ⌊y⌋ ≤ ⌊(32767 : ℚ)⌋ := Int.floor_le_floor h1
    omega
  case isFalse h =>
    push_neg at h
    have hge : (0 : ℤ) ≤ ⌊-y⌋ := Int.floor_nonneg.mpr (by linarith)
    have hle : ⌊-y⌋ ≤ ⌊(32767 : ℚ)⌋ := Int.floor_le_floor (by linarith)
    omega

theorem clampSample_eq (x : ℚ) (h0 : -1 ≤ x) (h1 : x ≤ 1) : clampSample x = x := by
  unfold clampSample
  rw [min_eq_right h1, max_eq_right h0]

/-- Single-sample round trip: encoding an in-range sample gives an int16
in `[-32767, 32767]` whose decode differs from the sample by at most
`2/32768 = 1/16384` (one unit of truncation error plus the `32767`
versus `32768` scale mismatch). -/
theorem roundtrip_sample (x : ℚ) (h0 : -1 ≤ x) (h1 : x ≤ 1) :
    -32767 ≤ floatToInt16 x ∧ floatToInt16 x ≤ 32767
    ∧ |int16ToFloat (floatToInt16 x) - x| ≤ 1 / 16384 := by
  have hy0 : -32767 ≤ x * 32767 := by linarith
  have hy1 : x * 32767 ≤ 32767 := by linarith
  have hft : floatToInt16 x = jsTrunc (x * 32767) := by
    rw [floatToInt16, clampSample_eq x h0 h1]
  have hr := jsTrunc_range (x * 32767) hy0 hy1
  refine ⟨by rw [hft]; exact hr.1, by rw [hft]; exact hr.2, ?_⟩
  have hnear := jsTrunc_near (x * 32767)
  rw [abs_le] at hnear
  obtain ⟨hn1, hn2⟩ := hnear
  rw [int16ToFloat, hft, abs_le]
  constructor
  · rw [show ((jsTrunc (x * 32767) : ℤ) : ℚ) / 32768 - x =
      (((jsTrunc (x * 32767) : ℤ) : ℚ) - x * 32767 - x) / 32768 by ring,
      le_div_iff₀ (by norm_num : (0 : ℚ) < 32768)]
    linarith
  · rw [show ((jsTrunc (x * 32767) : ℤ) : ℚ) / 32768 - x =
      (((jsTrunc (x * 32767) : ℤ) : ℚ) - x * 32767 - x) / 32768 by ring,
      div_le_iff₀ (by norm_num : (0 : ℚ) < 32768)]
    linarith

/-- Decoding the encode of a list of in-range samples succeeds and
yields the truncated-and-rescaled value of each sample. -/
theorem decode_encode : ∀ (xs : List ℚ), (∀ x ∈ xs, -1 ≤ x ∧ x ≤ 1) →
    decodePcm16 (floatToPcm16 xs) =
      .ok (xs.map fun x => int16ToFloat (floatToInt16 x))
  | [], _ => rfl
  | x :: xs, hx => by
    have hmem := hx x (List.mem_cons_self _ _)
    have hv := roundtrip_sample x hmem.1 hmem.2
    have ih := decode_encode xs (fun y hy => hx y (List.mem_cons_of_mem _ hy))
    show decodePcm16 ((int16ToBytes (floatToInt16 x)).1 ::
      (int16ToBytes (floatToInt16 x)).2 :: floatToPcm16 xs) = _
    rw [decodePcm16, ih,
      bytesToInt16_int16ToBytes _ (by linarith [hv.1]) hv.2.1]
    simp

/-- **C3** counterexample: the sample `131071/131072` lies in `[-1, 1]`
and survives the encode/decode chain as `16383/16384`, which differs
from it by `7/131072` — strictly more than one quantization step
`1/32768 = 4/131072`.  The one-step bound claimed for the round trip is
false of the code, because the encoder scales by `32767` while the
decoder divides by `32768`. -/
theorem roundtrip_one_step_counterexample :
    (-1 ≤ (131071 : ℚ) / 131072) ∧ ((131071 : ℚ) / 131072 ≤ 1)
    ∧ decodePcm16 (floatToPcm16 [(131071 : ℚ) / 131072]) = .ok [16383 / 16384]
    ∧ ¬(|(16383 / 16384 : ℚ) - 131071 / 131072| ≤ 1 / 32768) := by
  have hv : floatToInt16 ((131071 : ℚ) / 131072) = 32766 := by
    rw [floatToInt16, clampSample_eq _ (by norm_num) (by norm_num), jsTrunc,
      if_pos (by positivity)]
    rw [Int.floor_eq_iff]
    constructor <;> norm_num
  have hbytes : floatToPcm16 [(131071 : ℚ) / 131072] = [254, 127] := by
    show (int16ToBytes (floatToInt16 ((131071 : ℚ) / 131072))).1 ::
      (int16ToBytes (floatToInt16 ((131071 : ℚ) / 131072))).2 :: floatToPcm16 [] = _
    rw [hv]
    rfl
  refine ⟨by norm_num, by norm_num, ?_, ?_⟩
  · rw [hbytes]
    show Except.ok [int16ToFloat (bytesToInt16 254 127)] = _
    rw [show bytesToInt16 254 127 = 32766 by decide]
    rw [int16ToFloat]
    norm_num
  · rw [show (16383 / 16384 : ℚ) - 131071 / 131072 = -(7 / 131072) by norm_num,
      abs_neg, abs_of_nonneg (by norm_num : (0 : ℚ) ≤ 7 / 131072)]
    norm_num

/-- **C3** amended (round trip within two quantization steps): for every
sample list with entries in `[-1, 1]`, decoding the encoded PCM yields a
list of the same length whose entries each differ from the original by
at most two quantization steps, `2/32768 = 1/16384` — the best uniform
per-sample bound, since the encoder scales by `32767` but the decoder
divides by `32768`. -/
theorem pcm_roundtrip_two_steps (xs : List ℚ)
    (hx : ∀ x ∈ xs, -1 ≤ x ∧ x ≤ 1) :
    ∃ ys, decodePcm16 (floatToPcm16 xs) = .ok ys
      ∧ ys.length = xs.length
      ∧ ∀ i, i < xs.length → |ys.getD i 0 - xs.getD i 0| ≤ 1 / 16384 := by
  refine ⟨xs.map fun x => int16ToFloat (floatToInt16 x), decode_encode xs hx,
    by simp, ?_⟩
  intro i hi
  rw [List.getD_eq_getElem _ _ (by simpa using hi), List.getD_eq_getElem _ _ hi,
    List.getElem_map]
  have hmem := hx xs[i] (List.getElem_mem hi)
  exact (roundtrip_sample xs[i] hmem.1 hmem.2).2.2

/-- Witness for the amended C3 at the singleton sample list `[0]`. -/
theorem pcm_roundtrip_two_steps_witness :
    ∃ ys, decodePcm16 (floatToPcm16 [(0 : ℚ)]) = .ok ys
      ∧ ys.length = ([(0 : ℚ)] : List ℚ).length
      ∧ ∀ i, i < ([(0 : ℚ)] : List ℚ).length →
          |ys.getD i 0 - ([(0 : ℚ)] : List ℚ).getD i 0| ≤ 1 / 16384 :=
  pcm_roundtrip_two_steps [0] (by norm_num)

/-- **C7** (Mode-driven compression): the downscale factor and JPEG
quality used by a video tick are fully determined by the visual mode at
that tick — they are re-read from `isScreenSharing` on every tick, never
cached — and switching the mode from camera to screen share strictly
increases both: the next tick's scale goes from 1/4 to 1/2 and its
quality from 1/2 to 7/10. -/
theorem mode_driven_compression (st : SessionState) (src : VideoSource)
    (hconn : st.isConnected = true) :
    (∀ ctxOk f, videoTick st ctxOk src = some f →
      f.scale = scaleFor st.isScreenSharing
        ∧ f.quality = qualityFor st.isScreenSharing)
    ∧ videoTick (setScreenShareMode st false) true src =
        some ⟨1 / 4, 1 / 2, src.videoWidth * (1 / 4), src.videoHeight * (1 / 4)⟩
    ∧ videoTick (setScreenShareMode st true) true src =
        some ⟨1 / 2, 7 / 10, src.videoWidth * (1 / 2), src.videoHeight * (1 / 2)⟩
    ∧ scaleFor false < scaleFor true
    ∧ qualityFor false < qualityFor true := by
  refine ⟨?_, ?_, ?_, by norm_num [scaleFor], by norm_num [qualityFor]⟩
  · intro ctxOk f hf
    unfold videoTick at hf
    split at hf
    · exact absurd hf (by simp)
    · rw [Option.some.injEq] at hf
      subst hf
      exact ⟨rfl, rfl⟩
  · simp [videoTick, setScreenShareMode, hconn, scaleFor, qualityFor]
  · simp [videoTick, setScreenShareMode, hconn, scaleFor, qualityFor]

/-- Witness for C7 at a connected session and a 640×480 source. -/
theorem mode_driven_compression_witness :
    (∀ ctxOk f, videoTick connectedState ctxOk ⟨false, 640, 480⟩ = some f →
      f.scale = scaleFor connectedState.isScreenSharing
        ∧ f.quality = qualityFor connectedState.isScreenSharing)
    ∧ videoTick (setScreenShareMode connectedState false) true ⟨false, 640, 480⟩ =
        some ⟨1 / 4, 1 / 2, (640 : ℚ) * (1 / 4), (480 : ℚ) * (1 / 4)⟩
    ∧ videoTick (setScreenShareMode connectedState true) true ⟨false, 640, 480⟩ =
        some ⟨1 / 2, 7 / 10, (640 : ℚ) * (1 / 2), (480 : ℚ) * (1 / 2)⟩
    ∧ scaleFor false < scaleFor true
    ∧ qualityFor false < qualityFor true :=
  mode_driven_compression connectedState ⟨false, 640, 480⟩ rfl

/-- **C8** counterexample: a tick of a connected session whose video
source has produced no new frame (`hasNewFrame = false`, e.g. a paused
stream) still renders, compresses and sends a frame — the tick closure
never consults the source's freshness, so the claimed skip does not
happen. -/
theorem videoTick_stale_source_counterexample :
    (⟨false, 640, 480⟩ : VideoSource).hasNewFrame = false
    ∧ (videoTick connectedState true ⟨false, 640, 480⟩).isSome = true :=
  ⟨rfl, rfl⟩

/-- **C8** amended: a video tick is skipped — no frame compressed or
sent — precisely when the session is not connected or the canvas 2D
context is unavailable; the source's freshness is never consulted, so on
every tick of a connected session with a usable context a frame is
rendered, compressed and sent regardless of whether the source has a new
frame. -/
theorem videoTick_skip_iff (st : SessionState) (ctxOk : Bool) (src : VideoSource) :
    videoTick st ctxOk src = none ↔ st.isConnected = false ∨ ctxOk = false := by
  cases hc : st.isConnected <;> cases ctxOk <;> simp [videoTick, hc]

/-- **C9** counterexample: starting from a fully connected session,
the second of two consecutive `disconnect` calls re-issues the
input-source disconnect, the processor disconnect and the video-interval
clear (those fields are never nulled, so their guards pass again), and
neither call ever stops the microphone stream — teardown does not
release each acquired resource exactly once. -/
theorem disconnect_twice_counterexample :
    (disconnect (disconnect connectedState ⟨0, 0, 0, 0, 0, 0⟩).1
        (disconnect connectedState ⟨0, 0, 0, 0, 0, 0⟩).2).2 =
      { inputSourceDisconnects := 2
        processorDisconnects := 2
        inputContextCloses := 1
        outputContextCloses := 1
        intervalClears := 2
        micStops := 0 } := by
  decide

/-- **C9** amended: calling `disconnect` twice in a row from any
fully connected state produces no error (the function is total), closes
each audio context exactly once — their fields are nulled by the first
call, so the second call's guards skip them — but re-executes the
input-source disconnect, the processor disconnect and the interval clear
on the second call (those fields are never nulled; the repeated platform
calls are harmless no-ops), and never stops the microphone stream. -/
theorem disconnect_twice (st : SessionState) (log : ReleaseLog)
    (hsrc : st.inputSourceSet = true) (hproc : st.processorSet = true)
    (hin : st.inputContextSet = true) (hout : st.outputContextSet = true)
    (hvid : st.videoIntervalSet = true) :
    ((disconnect (disconnect st log).1 (disconnect st log).2).2.inputContextCloses =
        log.inputContextCloses + 1)
    ∧ ((disconnect (disconnect st log).1 (disconnect st log).2).2.outputContextCloses =
        log.outputContextCloses + 1)
    ∧ ((disconnect (disconnect st log).1 (disconnect st log).2).2.inputSourceDisconnects =
        log.inputSourceDisconnects + 2)
    ∧ ((disconnect (disconnect st log).1 (disconnect st log).2).2.processorDisconnects =
        log.processorDisconnects + 2)
    ∧ ((disconnect (disconnect st log).1 (disconnect st log).2).2.intervalClears =
        log.intervalClears + 2)
    ∧ ((disconnect (disconnect st log).1 (disconnect st log).2).2.micStops = log.micStops)
    ∧ (disconnect (disconnect st log).1 (disconnect st log).2).1.isConnected = false := by
  simp [disconnect, hsrc, hproc, hin, hout, hvid]

/-- Witness for the amended C9 at a connected session and a zeroed log. -/
theorem disconnect_twice_witness :
    ((disconnect (disconnect connectedState ⟨0, 0, 0, 0, 0, 0⟩).1
        (disconnect connectedState ⟨0, 0, 0, 0, 0, 0⟩).2).2.inputContextCloses =
      (⟨0, 0, 0, 0, 0, 0⟩ : ReleaseLog).inputContextCloses + 1)
    ∧ ((disconnect (disconnect connectedState ⟨0, 0, 0, 0, 0, 0⟩).1
        (disconnect connectedState ⟨0, 0, 0, 0, 0, 0⟩).2).2.outputContextCloses =
      (⟨0, 0, 0, 0, 0, 0⟩ : ReleaseLog).outputContextCloses + 1)
    ∧ ((disconnect (disconnect connectedState ⟨0, 0, 0, 0, 0, 0⟩).1
        (disconnect connectedState ⟨0, 0, 0, 0, 0, 0⟩).2).2.inputSourceDisconnects =
      (⟨0, 0, 0, 0, 0, 0⟩ : ReleaseLog).inputSourceDisconnects + 2)
    ∧ ((disconnect (disconnect connectedState ⟨0, 0, 0, 0, 0, 0⟩).1
        (disconnect connectedState ⟨0, 0, 0, 0, 0, 0⟩).2).2.processorDisconnects =
      (⟨0, 0, 0, 0, 0, 0⟩ : ReleaseLog).processorDisconnects + 2)
    ∧ ((disconnect (disconnect connectedState ⟨0, 0, 0, 0, 0, 0⟩).1
        (disconnect connectedState ⟨0, 0, 0, 0, 0, 0⟩).2).2.intervalClears =
      (⟨0, 0, 0, 0, 0, 0⟩ : ReleaseLog).intervalClears + 2)
    ∧ ((disconnect (disconnect connectedState ⟨0, 0, 0, 0, 0, 0⟩).1
        (disconnect connectedState ⟨0, 0, 0, 0, 0, 0⟩).2).2.micStops =
      (⟨0, 0, 0, 0, 0, 0⟩ : ReleaseLog).micStops)
    ∧ (disconnect (disconnect connectedState ⟨0, 0, 0, 0, 0, 0⟩).1
        (disconnect connectedState ⟨0, 0, 0, 0, 0, 0⟩).2).1.isConnected = false :=
  disconnect_twice connectedState ⟨0, 0, 0, 0, 0, 0⟩ rfl rfl rfl rfl rfl

end LiveSession
